import Mathlib

set_option linter.unusedVariables false

/-!
Verification of the Lorenz-ODE Lyapunov-spectrum estimation script.

The script integrates a three-dimensional Lorenz-family flow with a classical
fourth-order Runge-Kutta stepper, co-evolves three tangent vectors under the
linearized flow, periodically re-orthonormalizes them (Gram-Schmidt pull-back),
accumulates the logarithms of the normalization factors, and converts the sums
into Lyapunov-exponent estimates; a Kaplan-Yorke rule turns the ordered exponent
triple into a fractal-dimension estimate.

The numeric functions are embedded over an arbitrary field (instantiated at ℝ
for the claims, and at `ZMod` for an exact separation argument about the
trajectory burn-in); the module-level script state is embedded as explicit
state records and iterated step functions.
-/

namespace LorenzODE

/-! ### The Lorenz 3D ODEs (source lines 13-20) -/

def LorenzXDot {F : Type} [CommRing F] (alpha gamma mu beta delta lambd x y z : F) : F :=
  alpha * y * z - gamma * x

def LorenzYDot {F : Type} [CommRing F] (alpha gamma mu beta delta lambd x y z : F) : F :=
  mu * (y + z) - beta * x * z

def LorenzZDot {F : Type} [CommRing F] (alpha gamma mu beta delta lambd x y z : F) : F :=
  delta * y - lambd * z

/-! ### The tangent space (linearized) flow (source lines 23-30) -/

def LorenzDXDot {F : Type} [CommRing F] (alpha gamma mu beta delta lambd x y z dx dy dz : F) : F :=
  alpha * (y * dz + z * dy) - gamma * dx

def LorenzDYDot {F : Type} [CommRing F] (alpha gamma mu beta delta lambd x y z dx dy dz : F) : F :=
  mu * (dy + dz) - beta * (x * dz + z * dx)

def LorenzDZDot {F : Type} [CommRing F] (alpha gamma mu beta delta lambd x y z dx dy dz : F) : F :=
  delta * dy - lambd * dz

/-! ### 3D fourth-order Runge-Kutta integrator (source lines 61-77) -/

def RKThreeD {F : Type} [Field F] (a b c d e i x y z : F)
    (f g h : F → F → F → F → F → F → F → F → F → F) (dt : F) : F × F × F :=
  let k1x := dt * f a b c d e i x y z
  let k1y := dt * g a b c d e i x y z
  let k1z := dt * h a b c d e i x y z
  let k2x := dt * f a b c d e i (x + k1x / 2) (y + k1y / 2) (z + k1z / 2)
  let k2y := dt * g a b c d e i (x + k1x / 2) (y + k1y / 2) (z + k1z / 2)
  let k2z := dt * h a b c d e i (x + k1x / 2) (y + k1y / 2) (z + k1z / 2)
  let k3x := dt * f a b c d e i (x + k2x / 2) (y + k2y / 2) (z + k2z / 2)
  let k3y := dt * g a b c d e i (x + k2x / 2) (y + k2y / 2) (z + k2z / 2)
  let k3z := dt * h a b c d e i (x + k2x / 2) (y + k2y / 2) (z + k2z / 2)
  let k4x := dt * f a b c d e i (x + k3x) (y + k3y) (z + k3z)
  let k4y := dt * g a b c d e i (x + k3x) (y + k3y) (z + k3z)
  let k4z := dt * h a b c d e i (x + k3x) (y + k3y) (z + k3z)
  (x + (k1x + 2 * k2x + 2 * k3x + k4x) / 6,
   y + (k1y + 2 * k2y + 2 * k3y + k4y) / 6,
   z + (k1z + 2 * k2z + 2 * k3z + k4z) / 6)

/-! ### Tangent space flow, RK4 (source lines 80-96) -/

def TangentFlowRKThreeD {F : Type} [Field F] (a b c d e i x y z : F)
    (df dg dh : F → F → F → F → F → F → F → F → F → F → F → F → F)
    (dx dy dz dt : F) : F × F × F :=
  let k1x := dt * df a b c d e i x y z dx dy dz
  let k1y := dt * dg a b c d e i x y z dx dy dz
  let k1z := dt * dh a b c d e i x y z dx dy dz
  let k2x := dt * df a b c d e i x y z (dx + k1x / 2) (dy + k1y / 2) (dz + k1z / 2)
  let k2y := dt * dg a b c d e i x y z (dx + k1x / 2) (dy + k1y / 2) (dz + k1z / 2)
  let k2z := dt * dh a b c d e i x y z (dx + k1x / 2) (dy + k1y / 2) (dz + k1z / 2)
  let k3x := dt * df a b c d e i x y z (dx + k2x / 2) (dy + k2y / 2) (dz + k2z / 2)
  let k3y := dt * dg a b c d e i x y z (dx + k2x / 2) (dy + k2y / 2) (dz + k2z / 2)
  let k3z := dt * dh a b c d e i x y z (dx + k2x / 2) (dy + k2y / 2) (dz + k2z / 2)
  let k4x := dt * df a b c d e i x y z (dx + k3x) (dy + k3y) (dz + k3z)
  let k4y := dt * dg a b c d e i x y z (dx + k3x) (dy + k3y) (dz + k3z)
  let k4z := dt * dh a b c d e i x y z (dx + k3x) (dy + k3y) (dz + k3z)
  (dx + (k1x + 2 * k2x + 2 * k3x + k4x) / 6,
   dy + (k1y + 2 * k2y + 2 * k3y + k4y) / 6,
   dz + (k1z + 2 * k2z + 2 * k3z + k4z) / 6)

/-! ### The fractal dimension from the LCEs, Kaplan-Yorke (source lines 47-58).

The division in the chaotic branch depends on the runtime type of the
arguments. Builtin Python `float` division by zero raises
`ZeroDivisionError`; with numpy `float64` operands (`from pylab import *`
makes `log`/`sqrt` return numpy scalars, so the exponents the script itself
passes at line 262 are `float64`) a zero division instead returns `inf`,
`-inf` or `nan` with only a `RuntimeWarning`. Both semantics are modelled:
`FractalDimension3DODE` over `Except` for builtin floats (the two agree
whenever the denominator is nonzero, which is the only regime C7 uses), and
`FractalDimension3DODE64` over `NpVal` for the `float64` call the script
actually makes. -/

inductive PyErr : Type where
  | zeroDivisionError : PyErr
deriving DecidableEq

/-- Model of builtin Python `float` division: raises `ZeroDivisionError` on a
zero denominator, otherwise exact real division. -/
noncomputable def pydiv (a b : ℝ) : Except PyErr ℝ :=
  if b = 0 then .error .zeroDivisionError else .ok (a / b)

noncomputable def FractalDimension3DODE (LCE1 LCE2 LCE3 : ℝ) : Except PyErr ℝ :=
  let Err : ℝ := 0.01
  if LCE1 < -Err then .ok 0.0
  else if |LCE1| ≤ Err then
    if LCE2 < -Err then .ok 1.0
    else .ok 2.0
  else
    (pydiv (LCE1 + LCE2) |LCE3|).map (fun q => 2.0 + q)

/-! ### Vectors in phase / tangent space -/

@[ext]
structure Vec3 : Type where
  x : ℝ
  y : ℝ
  z : ℝ

namespace Vec3

instance : Add Vec3 := ⟨fun v w => ⟨v.x + w.x, v.y + w.y, v.z + w.z⟩⟩
instance : Sub Vec3 := ⟨fun v w => ⟨v.x - w.x, v.y - w.y, v.z - w.z⟩⟩
instance : Zero Vec3 := ⟨⟨0, 0, 0⟩⟩
instance : SMul ℝ Vec3 := ⟨fun c v => ⟨c * v.x, c * v.y, c * v.z⟩⟩

@[simp] theorem add_x (v w : Vec3) : (v + w).x = v.x + w.x := rfl
@[simp] theorem add_y (v w : Vec3) : (v + w).y = v.y + w.y := rfl
@[simp] theorem add_z (v w : Vec3) : (v + w).z = v.z + w.z := rfl
@[simp] theorem sub_x (v w : Vec3) : (v - w).x = v.x - w.x := rfl
@[simp] theorem sub_y (v w : Vec3) : (v - w).y = v.y - w.y := rfl
@[simp] theorem sub_z (v w : Vec3) : (v - w).z = v.z - w.z := rfl
@[simp] theorem zero_x : (0 : Vec3).x = 0 := rfl
@[simp] theorem zero_y : (0 : Vec3).y = 0 := rfl
@[simp] theorem zero_z : (0 : Vec3).z = 0 := rfl
@[simp] theorem smul_x (c : ℝ) (v : Vec3) : (c • v).x = c * v.x := rfl
@[simp] theorem smul_y (c : ℝ) (v : Vec3) : (c • v).y = c * v.y := rfl
@[simp] theorem smul_z (c : ℝ) (v : Vec3) : (c • v).z = c * v.z := rfl

def toProd (v : Vec3) : ℝ × ℝ × ℝ := (v.x, v.y, v.z)

def ofProd (t : ℝ × ℝ × ℝ) : Vec3 := ⟨t.1, t.2.1, t.2.2⟩

@[simp] theorem ofProd_toProd (v : Vec3) : ofProd (toProd v) = v := rfl

end Vec3

/-- Euclidean dot product on `Vec3`. -/
def dot (v w : Vec3) : ℝ := v.x * w.x + v.y * w.y + v.z * w.z

/-- Euclidean norm on `Vec3`. -/
noncomputable def norm3 (v : Vec3) : ℝ := Real.sqrt (dot v v)

/-! ### Specification-side integrator definitions.

Modelled from the spec's words (section 4.2): one classical fourth-order
Runge-Kutta step computes four stage derivatives `k1..k4` at `state`,
`state + k1/2`, `state + k2/2`, `state + k3` (each scaled by `dt`) and combines
them as `state + (k1 + 2*k2 + 2*k3 + k4)/6`. The sibling tangent step applies
the same four-stage weighting to the tangent argument while the derivative map
stays fixed. These are to be compared with `RKThreeD` / `TangentFlowRKThreeD`
translated from the source. -/

noncomputable def rk4SpecStep (F : Vec3 → Vec3) (s : Vec3) (dt : ℝ) : Vec3 :=
  let k1 := dt • F s
  let k2 := dt • F (s + (1/2 : ℝ) • k1)
  let k3 := dt • F (s + (1/2 : ℝ) • k2)
  let k4 := dt • F (s + k3)
  s + (1/6 : ℝ) • (k1 + (2 : ℝ) • k2 + (2 : ℝ) • k3 + k4)

noncomputable def tangentRK4Spec (DF : Vec3 → Vec3) (t : Vec3) (dt : ℝ) : Vec3 :=
  let k1 := dt • DF t
  let k2 := dt • DF (t + (1/2 : ℝ) • k1)
  let k3 := dt • DF (t + (1/2 : ℝ) • k2)
  let k4 := dt • DF (t + k3)
  t + (1/6 : ℝ) • (k1 + (2 : ℝ) • k2 + (2 : ℝ) • k3 + k4)

/-! ### Simulation parameters (source lines 98-112, 136-156) -/

def dt : ℝ := 0.01
def alpha : ℝ := 5
def gamma : ℝ := 1
def mu : ℝ := 2.2
def beta : ℝ := 8
def delta : ℝ := 1
def lambd : ℝ := 6.39
/-- The number of iterations to throw away (source lines 110 and 137). -/
def nTransients : ℕ := 100
/-- The number of pull-backs to estimate over (source line 140). -/
def nIterates : ℕ := 1000
/-- The number of iterations per pull-back (source line 142). -/
def nItsPerPB : ℕ := 10

/-- One nonlinear trajectory step, as invoked throughout the script:
`RKThreeD(alpha,gamma,mu,beta,delta,lambd, state, LorenzXDot,LorenzYDot,LorenzZDot, dt)`. -/
noncomputable def lorenzStep (s : Vec3) : Vec3 :=
  Vec3.ofProd (RKThreeD alpha gamma mu beta delta lambd s.x s.y s.z
    LorenzXDot LorenzYDot LorenzZDot dt)

/-- One tangent-vector step at base state `s`, as invoked throughout the script:
`TangentFlowRKThreeD(alpha,...,lambd, state, LorenzDXDot,LorenzDYDot,LorenzDZDot, tangent, dt)`. -/
noncomputable def tangentStep (s t : Vec3) : Vec3 :=
  Vec3.ofProd (TangentFlowRKThreeD alpha gamma mu beta delta lambd s.x s.y s.z
    LorenzDXDot LorenzDYDot LorenzDZDot t.x t.y t.z dt)

/-- The nonlinear vector field of the script, packaged as a map on `Vec3`
(spec component "VectorField", `derivative`). -/
noncomputable def lorenzField (v : Vec3) : Vec3 :=
  ⟨LorenzXDot alpha gamma mu beta delta lambd v.x v.y v.z,
   LorenzYDot alpha gamma mu beta delta lambd v.x v.y v.z,
   LorenzZDot alpha gamma mu beta delta lambd v.x v.y v.z⟩

/-- The linearized vector field at a fixed base state `s`
(spec component "VectorField", `linearizedDerivative`). -/
noncomputable def lorenzDerivField (s : Vec3) (u : Vec3) : Vec3 :=
  ⟨LorenzDXDot alpha gamma mu beta delta lambd s.x s.y s.z u.x u.y u.z,
   LorenzDYDot alpha gamma mu beta delta lambd s.x s.y s.z u.x u.y u.z,
   LorenzDZDot alpha gamma mu beta delta lambd s.x s.y s.z u.x u.y u.z⟩

/-! ### The script's estimation state and loops -/

/-- Trajectory state plus the three tangent vectors
(`xState,yState,zState,e1*,e2*,e3*` of the script). -/
structure EstState : Type where
  st : Vec3
  e1 : Vec3
  e2 : Vec3
  e3 : Vec3

/-- One iteration of the inner loop shared by the alignment and accumulation
loops (source lines 160-171 and 204-215): advance the trajectory one RK4 step,
then evolve each tangent vector at the updated state. -/
noncomputable def innerStepOnce (s : EstState) : EstState :=
  let st' := lorenzStep s.st
  { st := st'
    e1 := tangentStep st' s.e1
    e2 := tangentStep st' s.e2
    e3 := tangentStep st' s.e3 }

/-- Result of one Gram-Schmidt pull-back: the re-based tangent vectors and the
three normalization factors (the successive values of the script variable `d`). -/
structure PBResult : Type where
  e1 : Vec3
  e2 : Vec3
  e3 : Vec3
  d1 : ℝ
  d2 : ℝ
  d3 : ℝ

/-- The Gram-Schmidt pull-back block (source lines 172-197, repeated verbatim at
lines 216-247): normalize `e1`; remove the `e1` component from `e2` and
normalize; remove the `e1` and `e2` components from `e3` and normalize. -/
noncomputable def pullBack (v1 v2 v3 : Vec3) : PBResult :=
  let d1 := Real.sqrt (v1.x * v1.x + v1.y * v1.y + v1.z * v1.z)
  let e1 : Vec3 := ⟨v1.x / d1, v1.y / d1, v1.z / d1⟩
  let dote1e2 := e1.x * v2.x + e1.y * v2.y + e1.z * v2.z
  let w2 : Vec3 := ⟨v2.x - dote1e2 * e1.x, v2.y - dote1e2 * e1.y, v2.z - dote1e2 * e1.z⟩
  let d2 := Real.sqrt (w2.x * w2.x + w2.y * w2.y + w2.z * w2.z)
  let e2 : Vec3 := ⟨w2.x / d2, w2.y / d2, w2.z / d2⟩
  let dote1e3 := e1.x * v3.x + e1.y * v3.y + e1.z * v3.z
  let dote2e3 := e2.x * v3.x + e2.y * v3.y + e2.z * v3.z
  let w3 : Vec3 := ⟨v3.x - (dote1e3 * e1.x + dote2e3 * e2.x),
                    v3.y - (dote1e3 * e1.y + dote2e3 * e2.y),
                    v3.z - (dote1e3 * e1.z + dote2e3 * e2.z)⟩
  let d3 := Real.sqrt (w3.x * w3.x + w3.y * w3.y + w3.z * w3.z)
  let e3 : Vec3 := ⟨w3.x / d3, w3.y / d3, w3.z / d3⟩
  ⟨e1, e2, e3, d1, d2, d3⟩

/-- One pull-back interval of the alignment loop (source lines 159-197):
`nItsPerPB` co-advance steps, then orthonormalize, discarding the factors. -/
noncomputable def alignStep (s : EstState) : EstState :=
  let s' := innerStepOnce^[nItsPerPB] s
  let pb := pullBack s'.e1 s'.e2 s'.e3
  { st := s'.st, e1 := pb.e1, e2 := pb.e2, e3 := pb.e3 }

/-- Estimation state together with the running exponent accumulators
`LCE1,LCE2,LCE3` of the script. -/
structure AccState : Type where
  es : EstState
  LCE1 : ℝ
  LCE2 : ℝ
  LCE3 : ℝ

/-- One pull-back interval of the accumulation loop (source lines 203-247):
`nItsPerPB` co-advance steps, orthonormalize, and add the logarithm of each
normalization factor to its accumulator. -/
noncomputable def accumStep (s : AccState) : AccState :=
  let s' := innerStepOnce^[nItsPerPB] s.es
  let pb := pullBack s'.e1 s'.e2 s'.e3
  { es := { st := s'.st, e1 := pb.e1, e2 := pb.e2, e3 := pb.e3 }
    LCE1 := s.LCE1 + Real.log pb.d1
    LCE2 := s.LCE2 + Real.log pb.d2
    LCE3 := s.LCE3 + Real.log pb.d3 }

/-- The pull-back performed at the end of one interval starting from `s`
(the factors it records drive the accumulation). -/
noncomputable def intervalPB (s : EstState) : PBResult :=
  let s' := innerStepOnce^[nItsPerPB] s
  pullBack s'.e1 s'.e2 s'.e3

/-! ### The script's top-level run (module level) -/

/-- Initial condition of the plotting section (source lines 115-117). -/
def initState : Vec3 := ⟨1, 1, 1⟩

/-- State after the trajectory transient loop (source lines 119-121). -/
noncomputable def trajTransientEnd : Vec3 := lorenzStep^[nTransients] initState

/-- Initial condition of the LCE-estimation section (source lines 144-146):
the state is re-initialized to `(1,1,1)`. -/
def lceInitState : Vec3 := ⟨1, 1, 1⟩

/-- Initial tangent vectors (source lines 148-156): the standard basis. -/
def initE1 : Vec3 := ⟨1, 0, 0⟩
def initE2 : Vec3 := ⟨0, 1, 0⟩
def initE3 : Vec3 := ⟨0, 0, 1⟩

/-- State after the alignment burn-in loop (source lines 159-197). -/
noncomputable def alignEnd : EstState :=
  alignStep^[nTransients] { st := lceInitState, e1 := initE1, e2 := initE2, e3 := initE3 }

/-- State and accumulators after the accumulation loop
(source lines 200-247; `LCE1 = LCE2 = LCE3 = 0.0` initially). -/
noncomputable def accumEnd : AccState :=
  accumStep^[nIterates] { es := alignEnd, LCE1 := 0, LCE2 := 0, LCE3 := 0 }

/-- Total elapsed integration time (source line 250). -/
def IntegrationTime : ℝ := dt * (nItsPerPB : ℝ) * (nIterates : ℝ)

/-- The final exponent-rate estimates (source lines 251-253). -/
noncomputable def finalLCE1 : ℝ := accumEnd.LCE1 / IntegrationTime
noncomputable def finalLCE2 : ℝ := accumEnd.LCE2 / IntegrationTime
noncomputable def finalLCE3 : ℝ := accumEnd.LCE3 / IntegrationTime

/-! ### The integrators agree with the spec-side RK4 descriptions -/

theorem rk_step_eq_spec (a b c d e i x y z dtv : ℝ)
    (f g h : ℝ → ℝ → ℝ → ℝ → ℝ → ℝ → ℝ → ℝ → ℝ → ℝ) :
    RKThreeD a b c d e i x y z f g h dtv =
      (rk4SpecStep
        (fun v => ⟨f a b c d e i v.x v.y v.z, g a b c d e i v.x v.y v.z,
                   h a b c d e i v.x v.y v.z⟩) ⟨x, y, z⟩ dtv).toProd := by
  simp only [RKThreeD, rk4SpecStep, Vec3.toProd, Vec3.add_x, Vec3.add_y, Vec3.add_z,
    Vec3.smul_x, Vec3.smul_y, Vec3.smul_z, Prod.mk.injEq]
  refine ⟨?_, ?_, ?_⟩ <;> ring_nf

theorem tangent_step_eq_spec (a b c d e i x y z dx dy dz dtv : ℝ)
    (df dg dh : ℝ → ℝ → ℝ → ℝ → ℝ → ℝ → ℝ → ℝ → ℝ → ℝ → ℝ → ℝ → ℝ) :
    TangentFlowRKThreeD a b c d e i x y z df dg dh dx dy dz dtv =
      (tangentRK4Spec
        (fun u => ⟨df a b c d e i x y z u.x u.y u.z, dg a b c d e i x y z u.x u.y u.z,
                   dh a b c d e i x y z u.x u.y u.z⟩) ⟨dx, dy, dz⟩ dtv).toProd := by
  simp only [TangentFlowRKThreeD, tangentRK4Spec, Vec3.toProd, Vec3.add_x, Vec3.add_y,
    Vec3.add_z, Vec3.smul_x, Vec3.smul_y, Vec3.smul_z, Prod.mk.injEq]
  refine ⟨?_, ?_, ?_⟩ <;> ring_nf

theorem lorenzStep_eq_spec (s : Vec3) : lorenzStep s = rk4SpecStep lorenzField s dt := by
  simp only [lorenzStep, rk_step_eq_spec, Vec3.ofProd_toProd]
  rfl

theorem tangentStep_eq_spec (s t : Vec3) :
    tangentStep s t = tangentRK4Spec (lorenzDerivField s) t dt := by
  simp only [tangentStep, tangent_step_eq_spec, Vec3.ofProd_toProd]
  rfl

/-- C1: for every state `(x,y,z)`, every step size `dt`, and every derivative
triple `(f,g,h)`, `RKThreeD` returns the classical fourth-order Runge-Kutta
step: four stage derivatives `k1..k4` evaluated at `state`, `state + k1/2`,
`state + k2/2`, `state + k3` (each stage scaled by `dt`), combined as
`state + (k1 + 2*k2 + 2*k3 + k4)/6` componentwise. -/
theorem RKThreeD_classical_rk4_step (a b c d e i x y z dtv : ℝ)
    (f g h : ℝ → ℝ → ℝ → ℝ → ℝ → ℝ → ℝ → ℝ → ℝ → ℝ) :
    RKThreeD a b c d e i x y z f g h dtv =
      (rk4SpecStep
        (fun v => ⟨f a b c d e i v.x v.y v.z, g a b c d e i v.x v.y v.z,
                   h a b c d e i v.x v.y v.z⟩) ⟨x, y, z⟩ dtv).toProd :=
  rk_step_eq_spec a b c d e i x y z dtv f g h

/-- C2: `TangentFlowRKThreeD` applies the same four-stage RK4 weighting as the
nonlinear stepper but evaluates the linearized derivative at one fixed state
`(x,y,z)` for all four stages, varying only the tangent argument; and each
inner step of the estimation loops evolves the tangent vectors with that fixed
state being the already-advanced state produced by the immediately preceding
`RKThreeD` call (not an intermediate RK stage state of the nonlinear flow). -/
theorem TangentFlow_fixed_state_rk4 :
    (∀ (a b c d e i x y z dx dy dz dtv : ℝ)
       (df dg dh : ℝ → ℝ → ℝ → ℝ → ℝ → ℝ → ℝ → ℝ → ℝ → ℝ → ℝ → ℝ → ℝ),
       TangentFlowRKThreeD a b c d e i x y z df dg dh dx dy dz dtv =
         (tangentRK4Spec
           (fun u => ⟨df a b c d e i x y z u.x u.y u.z, dg a b c d e i x y z u.x u.y u.z,
                      dh a b c d e i x y z u.x u.y u.z⟩) ⟨dx, dy, dz⟩ dtv).toProd) ∧
    (∀ s : EstState, innerStepOnce s =
       { st := rk4SpecStep lorenzField s.st dt
         e1 := tangentRK4Spec (lorenzDerivField (rk4SpecStep lorenzField s.st dt)) s.e1 dt
         e2 := tangentRK4Spec (lorenzDerivField (rk4SpecStep lorenzField s.st dt)) s.e2 dt
         e3 := tangentRK4Spec (lorenzDerivField (rk4SpecStep lorenzField s.st dt)) s.e3 dt }) := by
  constructor
  · exact tangent_step_eq_spec
  · intro s
    simp only [innerStepOnce, lorenzStep_eq_spec, tangentStep_eq_spec]

/-! ### Kaplan-Yorke fractal dimension -/

/-- C7: `FractalDimension3DODE`, with tolerance `eps = 0.01`, returns `0` when
`LCE1 < -eps`; `1` when `|LCE1| ≤ eps` and `LCE2 < -eps`; `2` when
`|LCE1| ≤ eps` and `LCE2 ≥ -eps`; and `2 + (LCE1 + LCE2)/|LCE3|` when
`LCE1 > eps` (the division being defined, i.e. `LCE3 ≠ 0`). The four concrete
evaluations of the claim are recorded in the witness. -/
theorem FractalDimension3DODE_cases :
    (∀ L1 L2 L3 : ℝ, L1 < -0.01 → FractalDimension3DODE L1 L2 L3 = .ok 0) ∧
    (∀ L1 L2 L3 : ℝ, |L1| ≤ 0.01 → L2 < -0.01 → FractalDimension3DODE L1 L2 L3 = .ok 1) ∧
    (∀ L1 L2 L3 : ℝ, |L1| ≤ 0.01 → -0.01 ≤ L2 → FractalDimension3DODE L1 L2 L3 = .ok 2) ∧
    (∀ L1 L2 L3 : ℝ, 0.01 < L1 → L3 ≠ 0 →
       FractalDimension3DODE L1 L2 L3 = .ok (2 + (L1 + L2) / |L3|)) := by
  refine ⟨?_, ?_, ?_, ?_⟩
  · intro L1 L2 L3 h
    simp only [FractalDimension3DODE]
    rw [if_pos h]
    norm_num
  · intro L1 L2 L3 h1 h2
    simp only [FractalDimension3DODE]
    rw [if_neg (not_lt.mpr (abs_le.mp h1).1), if_pos h1, if_pos h2]
    norm_num
  · intro L1 L2 L3 h1 h2
    simp only [FractalDimension3DODE]
    rw [if_neg (not_lt.mpr (abs_le.mp h1).1), if_pos h1, if_neg (not_lt.mpr h2)]
    norm_num
  · intro L1 L2 L3 h1 h3
    simp only [FractalDimension3DODE, pydiv]
    rw [if_neg (not_lt.mpr (by linarith)),
      if_neg (not_le.mpr (lt_of_lt_of_le h1 (le_abs_self L1))),
      if_neg (fun habs => h3 (abs_eq_zero.mp habs))]
    simp only [Except.map]
    norm_num [add_comm]

/-- Witness for C7 at the claim's four concrete inputs. -/
theorem FractalDimension3DODE_cases_witness :
    ((-1 : ℝ) < -0.01 ∧ FractalDimension3DODE (-1) (-2) (-3) = .ok 0) ∧
    (|(0 : ℝ)| ≤ 0.01 ∧ (-1 : ℝ) < -0.01 ∧ FractalDimension3DODE 0 (-1) (-2) = .ok 1) ∧
    (|(0 : ℝ)| ≤ 0.01 ∧ (-0.01 : ℝ) ≤ 0 ∧ FractalDimension3DODE 0 0 (-1) = .ok 2) ∧
    ((0.01 : ℝ) < 1 ∧ ((-2 : ℝ) ≠ 0) ∧ FractalDimension3DODE 1 0 (-2) = .ok 2.5) := by
  have habs : |(-2 : ℝ)| = 2 := by
    rw [abs_of_nonpos (by norm_num)]
    norm_num
  refine ⟨⟨by norm_num, ?_⟩, ⟨by norm_num, by norm_num, ?_⟩,
          ⟨by norm_num, by norm_num, ?_⟩, ⟨by norm_num, by norm_num, ?_⟩⟩
  · exact FractalDimension3DODE_cases.1 (-1) (-2) (-3) (by norm_num)
  · exact FractalDimension3DODE_cases.2.1 0 (-1) (-2) (by norm_num) (by norm_num)
  · exact FractalDimension3DODE_cases.2.2.1 0 0 (-1) (by norm_num) (by norm_num)
  · rw [FractalDimension3DODE_cases.2.2.2 1 0 (-2) (by norm_num) (by norm_num), habs]
    norm_num

/-- The value of a numpy `float64` expression: a finite real, `inf`, `-inf`,
or `nan`. -/
inductive NpVal : Type where
  | fin : ℝ → NpVal
  | pinf : NpVal
  | ninf : NpVal
  | nan : NpVal

/-- Model of numpy `float64` division on finite operands: a zero denominator
yields `inf`, `-inf` or `nan` (accompanied at runtime only by a
`RuntimeWarning`, never an exception); otherwise exact real division. -/
noncomputable def npdiv (a b : ℝ) : NpVal :=
  if b = 0 then (if 0 < a then .pinf else if a < 0 then .ninf else .nan)
  else .fin (a / b)

/-- Adding the finite constant `2.0` to a numpy value: `2.0 + inf = inf`. -/
def npAddTwo : NpVal → NpVal
  | .fin r => .fin (2 + r)
  | .pinf => .pinf
  | .ninf => .ninf
  | .nan => .nan

/-- `FractalDimension3DODE` (source lines 47-58) as executed on the numpy
`float64` arguments of the script's only call (source line 262, where
`LCE1..LCE3` were accumulated through numpy `log`): identical branch
structure, with the chaotic-branch division under `float64` semantics. -/
noncomputable def FractalDimension3DODE64 (LCE1 LCE2 LCE3 : ℝ) : NpVal :=
  let Err : ℝ := 0.01
  if LCE1 < -Err then .fin 0.0
  else if |LCE1| ≤ Err then
    if LCE2 < -Err then .fin 1.0
    else .fin 2.0
  else
    npAddTwo (npdiv (LCE1 + LCE2) |LCE3|)

/-- C8 counterexample: at `LCE1 = 1 > eps`, `LCE2 = 0`, `LCE3 = 0`, the
boundary case is not handled: under the `float64` semantics of the script's
call, `FractalDimension3DODE` does not fail with any `DivisionByZero` signal
and does not clamp — it silently returns the unflagged `Inf` value (only a
`RuntimeWarning` is emitted at runtime), refuting the claim. -/
theorem FractalDimension3DODE64_silent_inf :
    FractalDimension3DODE64 1 0 0 = NpVal.pinf := by
  simp only [FractalDimension3DODE64, npdiv]
  rw [if_neg (by norm_num), if_neg (by norm_num), if_pos (by norm_num),
    if_pos (by norm_num)]
  rfl

/-- C8 amended: `FractalDimension3DODE` contains no handling of the
`LCE3 = 0` boundary: with `LCE1 > eps` and `LCE3 = 0`, the division by
`|LCE3|` is executed unconditionally, and under the numpy `float64` semantics
of the script's only call it silently returns `Inf` whenever
`LCE1 + LCE2 > 0` (with only a `RuntimeWarning`); no `DivisionByZero` signal
and no clamping exist. (Only under builtin Python `float` operands, which the
script never passes, would the same line raise `ZeroDivisionError`.) -/
theorem FractalDimension3DODE64_div_zero_inf (L1 L2 L3 : ℝ)
    (h1 : 0.01 < L1) (h3 : L3 = 0) (hsum : 0 < L1 + L2) :
    FractalDimension3DODE64 L1 L2 L3 = NpVal.pinf := by
  simp only [FractalDimension3DODE64, npdiv]
  rw [if_neg (not_lt.mpr (by linarith)),
    if_neg (not_le.mpr (lt_of_lt_of_le h1 (le_abs_self L1))),
    if_pos (abs_eq_zero.mpr h3), if_pos hsum]
  rfl

/-- Witness for the amended C8 at `(1, 0, 0)`. -/
theorem FractalDimension3DODE64_div_zero_inf_witness :
    (0.01 : ℝ) < 1 ∧ ((0 : ℝ) = 0) ∧ (0 : ℝ) < 1 + 0 ∧
      FractalDimension3DODE64 1 0 0 = NpVal.pinf :=
  ⟨by norm_num, rfl, by norm_num,
    FractalDimension3DODE64_div_zero_inf 1 0 0 (by norm_num) rfl (by norm_num)⟩

/-! ### Behavior of the integrator on a degenerate step size -/

/-- C9 counterexample: called on the Lorenz field at state `(1,1,1)` with the
degenerate step size `dt = 0`, `RKThreeD` does not fail with any
`InvalidConfiguration` signal: it silently returns the unchanged state
(a no-op), refuting the claimed fail-fast behavior. -/
theorem RKThreeD_dt_zero_silent_noop :
    RKThreeD alpha gamma mu beta delta lambd 1 1 1
      LorenzXDot LorenzYDot LorenzZDot 0 = (1, 1, 1) := by
  simp only [RKThreeD]
  norm_num

/-- C9 amended: `RKThreeD` performs no validation of `dt` and has no failure
channel; for `dt = 0` it returns the input state unchanged (a silent no-op)
for every parameter set, state, and derivative triple. -/
theorem RKThreeD_no_dt_validation (a b c d e i x y z : ℝ)
    (f g h : ℝ → ℝ → ℝ → ℝ → ℝ → ℝ → ℝ → ℝ → ℝ → ℝ) :
    RKThreeD a b c d e i x y z f g h 0 = (x, y, z) := by
  simp only [RKThreeD]
  norm_num

/-- C10: for every fixed parameter set, base state, and step size, the
tangent-space step `TangentFlowRKThreeD` with the linearized derivatives
`LorenzDXDot`/`LorenzDYDot`/`LorenzDZDot` is a linear map of its tangent
argument: it sends sums to sums and scalar multiples to scalar multiples. -/
theorem TangentFlowRKThreeD_linear (a b c d e i x y z dtv : ℝ) (u v : Vec3) (r : ℝ) :
    (Vec3.ofProd (TangentFlowRKThreeD a b c d e i x y z
        LorenzDXDot LorenzDYDot LorenzDZDot (u + v).x (u + v).y (u + v).z dtv) =
      Vec3.ofProd (TangentFlowRKThreeD a b c d e i x y z
        LorenzDXDot LorenzDYDot LorenzDZDot u.x u.y u.z dtv) +
      Vec3.ofProd (TangentFlowRKThreeD a b c d e i x y z
        LorenzDXDot LorenzDYDot LorenzDZDot v.x v.y v.z dtv)) ∧
    (Vec3.ofProd (TangentFlowRKThreeD a b c d e i x y z
        LorenzDXDot LorenzDYDot LorenzDZDot (r • u).x (r • u).y (r • u).z dtv) =
      r • Vec3.ofProd (TangentFlowRKThreeD a b c d e i x y z
        LorenzDXDot LorenzDYDot LorenzDZDot u.x u.y u.z dtv)) := by
  constructor <;>
    · apply Vec3.ext <;>
        simp only [TangentFlowRKThreeD, LorenzDXDot, LorenzDYDot, LorenzDZDot, Vec3.ofProd,
          Vec3.add_x, Vec3.add_y, Vec3.add_z, Vec3.smul_x, Vec3.smul_y, Vec3.smul_z] <;>
        ring

/-! ### Dot-product algebra on `Vec3` -/

theorem dot_comm (v w : Vec3) : dot v w = dot w v := by
  simp only [dot]; ring

theorem dot_add_right (u v w : Vec3) : dot u (v + w) = dot u v + dot u w := by
  simp only [dot, Vec3.add_x, Vec3.add_y, Vec3.add_z]; ring

theorem dot_sub_right (u v w : Vec3) : dot u (v - w) = dot u v - dot u w := by
  simp only [dot, Vec3.sub_x, Vec3.sub_y, Vec3.sub_z]; ring

theorem dot_smul_right (c : ℝ) (u v : Vec3) : dot u (c • v) = c * dot u v := by
  simp only [dot, Vec3.smul_x, Vec3.smul_y, Vec3.smul_z]; ring

theorem dot_self_nonneg (v : Vec3) : 0 ≤ dot v v := by
  simp only [dot]
  have hx := mul_self_nonneg v.x
  have hy := mul_self_nonneg v.y
  have hz := mul_self_nonneg v.z
  linarith

theorem dot_self_eq_zero_iff (v : Vec3) : dot v v = 0 ↔ v = 0 := by
  constructor
  · intro h
    simp only [dot] at h
    have hx : v.x * v.x = 0 := by nlinarith [mul_self_nonneg v.x, mul_self_nonneg v.y, mul_self_nonneg v.z]
    have hy : v.y * v.y = 0 := by nlinarith [mul_self_nonneg v.x, mul_self_nonneg v.y, mul_self_nonneg v.z]
    have hz : v.z * v.z = 0 := by nlinarith [mul_self_nonneg v.x, mul_self_nonneg v.y, mul_self_nonneg v.z]
    ext
    · exact mul_self_eq_zero.mp hx
    · exact mul_self_eq_zero.mp hy
    · exact mul_self_eq_zero.mp hz
  · intro h
    simp [h, dot]

theorem dot_self_pos (v : Vec3) (h : v ≠ 0) : 0 < dot v v :=
  lt_of_le_of_ne (dot_self_nonneg v) (fun h0 => h ((dot_self_eq_zero_iff v).mp h0.symm))

theorem norm3_pos (v : Vec3) (h : v ≠ 0) : 0 < norm3 v :=
  Real.sqrt_pos.mpr (dot_self_pos v h)

theorem norm3_mul_self (v : Vec3) : norm3 v * norm3 v = dot v v :=
  Real.mul_self_sqrt (dot_self_nonneg v)

/-- Division of a vector by its Euclidean norm, the normalization sub-step of
the pull-back block. -/
noncomputable def unitize (v : Vec3) : Vec3 :=
  ⟨v.x / norm3 v, v.y / norm3 v, v.z / norm3 v⟩

theorem unitize_x (v : Vec3) : (unitize v).x = v.x / norm3 v := rfl
theorem unitize_y (v : Vec3) : (unitize v).y = v.y / norm3 v := rfl
theorem unitize_z (v : Vec3) : (unitize v).z = v.z / norm3 v := rfl

theorem dot_unitize_right (u v : Vec3) : dot u (unitize v) = dot u v / norm3 v := by
  simp only [dot, unitize]
  ring

theorem dot_unitize_left (u v : Vec3) : dot (unitize v) u = dot v u / norm3 v := by
  simp only [dot, unitize]
  ring

theorem dot_unitize_self (v : Vec3) (h : v ≠ 0) : dot (unitize v) (unitize v) = 1 := by
  have hn := norm3_pos v h
  simp only [dot, unitize]
  field_simp
  rw [norm3_mul_self]
  rfl

theorem norm3_unitize (v : Vec3) (h : v ≠ 0) : norm3 (unitize v) = 1 := by
  rw [norm3, dot_unitize_self v h, Real.sqrt_one]

/-! ### The Gram-Schmidt stages of the pull-back block -/

/-- The second vector after removal of its projection onto the normalized first
vector (the script's `e2` right after the `dote1e2` subtraction). -/
noncomputable def gsP2 (v1 v2 : Vec3) : Vec3 :=
  v2 - dot (unitize v1) v2 • unitize v1

/-- The third vector after removal of its projections onto the two normalized
preceding vectors (the script's `e3` right after the `dote1e3`/`dote2e3`
subtraction). -/
noncomputable def gsP3 (v1 v2 v3 : Vec3) : Vec3 :=
  v3 - (dot (unitize v1) v3 • unitize v1 +
        dot (unitize (gsP2 v1 v2)) v3 • unitize (gsP2 v1 v2))

theorem gsP2_x (v1 v2 : Vec3) :
    (gsP2 v1 v2).x = v2.x - dot (unitize v1) v2 * (v1.x / norm3 v1) := rfl
theorem gsP2_y (v1 v2 : Vec3) :
    (gsP2 v1 v2).y = v2.y - dot (unitize v1) v2 * (v1.y / norm3 v1) := rfl
theorem gsP2_z (v1 v2 : Vec3) :
    (gsP2 v1 v2).z = v2.z - dot (unitize v1) v2 * (v1.z / norm3 v1) := rfl

theorem pullBack_e1_eq (v1 v2 v3 : Vec3) : (pullBack v1 v2 v3).e1 = unitize v1 := rfl

theorem pullBack_e2_eq (v1 v2 v3 : Vec3) : (pullBack v1 v2 v3).e2 = unitize (gsP2 v1 v2) := rfl

theorem pullBack_e3_eq (v1 v2 v3 : Vec3) :
    (pullBack v1 v2 v3).e3 = unitize (gsP3 v1 v2 v3) := rfl

theorem pullBack_d1_eq (v1 v2 v3 : Vec3) : (pullBack v1 v2 v3).d1 = norm3 v1 := rfl

theorem pullBack_d2_eq (v1 v2 v3 : Vec3) : (pullBack v1 v2 v3).d2 = norm3 (gsP2 v1 v2) := rfl

theorem pullBack_d3_eq (v1 v2 v3 : Vec3) :
    (pullBack v1 v2 v3).d3 = norm3 (gsP3 v1 v2 v3) := rfl

/-- Linear independence of an ordered triple of vectors, over exact real
arithmetic. -/
def LinIndep3 (v1 v2 v3 : Vec3) : Prop :=
  ∀ a b c : ℝ, a • v1 + b • v2 + c • v3 = 0 → a = 0 ∧ b = 0 ∧ c = 0

theorem LinIndep3.fst_ne_zero {v1 v2 v3 : Vec3} (h : LinIndep3 v1 v2 v3) : v1 ≠ 0 := by
  intro hv
  have h1 := (h 1 0 0 (by ext <;> simp [hv])).1
  norm_num at h1

theorem gsP2_ne_zero {v1 v2 v3 : Vec3} (h : LinIndep3 v1 v2 v3) : gsP2 v1 v2 ≠ 0 := by
  intro hw
  have hv1 : v1 ≠ 0 := h.fst_ne_zero
  have happ := h (dot (unitize v1) v2 / norm3 v1) (-1) 0 ?_
  · exact absurd happ.2.1 (by norm_num)
  · have hx := congrArg Vec3.x hw
    have hy := congrArg Vec3.y hw
    have hz := congrArg Vec3.z hw
    simp only [gsP2, Vec3.sub_x, Vec3.sub_y, Vec3.sub_z, Vec3.smul_x, Vec3.smul_y,
      Vec3.smul_z, Vec3.zero_x, Vec3.zero_y, Vec3.zero_z, unitize_x, unitize_y,
      unitize_z] at hx hy hz
    ext <;>
      simp only [Vec3.add_x, Vec3.add_y, Vec3.add_z, Vec3.smul_x, Vec3.smul_y, Vec3.smul_z,
        Vec3.zero_x, Vec3.zero_y, Vec3.zero_z]
    · linear_combination -hx
    · linear_combination -hy
    · linear_combination -hz

theorem dot_unitize_v1_gsP2 {v1 : Vec3} (v2 : Vec3) (hv1 : v1 ≠ 0) :
    dot (unitize v1) (gsP2 v1 v2) = 0 := by
  rw [gsP2, dot_sub_right, dot_smul_right, dot_unitize_self v1 hv1]
  ring

theorem dot_unitize_unitize_gsP2 {v1 : Vec3} (v2 : Vec3) (hv1 : v1 ≠ 0) :
    dot (unitize v1) (unitize (gsP2 v1 v2)) = 0 := by
  rw [dot_unitize_right, dot_unitize_v1_gsP2 v2 hv1, zero_div]

theorem dot_unitize_v1_gsP3 {v1 : Vec3} (v2 v3 : Vec3) (hv1 : v1 ≠ 0) :
    dot (unitize v1) (gsP3 v1 v2 v3) = 0 := by
  rw [gsP3, dot_sub_right, dot_add_right, dot_smul_right, dot_smul_right,
    dot_unitize_self v1 hv1, dot_unitize_unitize_gsP2 v2 hv1]
  ring

theorem dot_unitize_gsP2_gsP3 {v1 v2 : Vec3} (v3 : Vec3) (hv1 : v1 ≠ 0)
    (hw2 : gsP2 v1 v2 ≠ 0) :
    dot (unitize (gsP2 v1 v2)) (gsP3 v1 v2 v3) = 0 := by
  have h21 : dot (unitize (gsP2 v1 v2)) (unitize v1) = 0 := by
    rw [dot_comm]
    exact dot_unitize_unitize_gsP2 v2 hv1
  rw [gsP3, dot_sub_right, dot_add_right, dot_smul_right, dot_smul_right,
    dot_unitize_self _ hw2, h21]
  ring

theorem gsP3_ne_zero {v1 v2 v3 : Vec3} (h : LinIndep3 v1 v2 v3) : gsP3 v1 v2 v3 ≠ 0 := by
  intro hw
  have hv1 : v1 ≠ 0 := h.fst_ne_zero
  have hw2 : gsP2 v1 v2 ≠ 0 := gsP2_ne_zero h
  have hn1 := norm3_pos v1 hv1
  have hn2 := norm3_pos _ hw2
  have happ := h
    ((dot (unitize v1) v3 * norm3 (gsP2 v1 v2) -
      dot (unitize (gsP2 v1 v2)) v3 * dot (unitize v1) v2) * norm3 v1)
    (dot (unitize (gsP2 v1 v2)) v3 * (norm3 v1 * norm3 v1))
    (-(norm3 v1 * norm3 v1 * norm3 (gsP2 v1 v2))) ?_
  · have h3 := happ.2.2
    have hpos : 0 < norm3 v1 * norm3 v1 * norm3 (gsP2 v1 v2) :=
      mul_pos (mul_pos hn1 hn1) hn2
    linarith
  · have hx := congrArg Vec3.x hw
    have hy := congrArg Vec3.y hw
    have hz := congrArg Vec3.z hw
    simp only [gsP3, Vec3.sub_x, Vec3.sub_y, Vec3.sub_z, Vec3.add_x, Vec3.add_y,
      Vec3.add_z, Vec3.smul_x, Vec3.smul_y, Vec3.smul_z, Vec3.zero_x, Vec3.zero_y,
      Vec3.zero_z, unitize_x, unitize_y, unitize_z, gsP2_x, gsP2_y, gsP2_z] at hx hy hz
    have hn1' := hn1.ne'
    have hn2' := hn2.ne'
    field_simp at hx hy hz
    ext <;>
      simp only [Vec3.add_x, Vec3.add_y, Vec3.add_z, Vec3.smul_x, Vec3.smul_y, Vec3.smul_z,
        Vec3.zero_x, Vec3.zero_y, Vec3.zero_z]
    · linear_combination -hx
    · linear_combination -hy
    · linear_combination -hz

/-- C3: for every ordered triple of linearly independent tangent vectors (over
exact real arithmetic), the pull-back block produces an orthonormal set in the
same order — each output has unit Euclidean norm and distinct outputs have zero
dot product — and the normalization factor recorded for index `k` equals the
Euclidean norm of vector `k` after subtracting its projections onto the
already-normalized vectors `0..k-1` but before dividing by that norm. -/
theorem pullBack_orthonormal (v1 v2 v3 : Vec3) (h : LinIndep3 v1 v2 v3) :
    (norm3 (pullBack v1 v2 v3).e1 = 1 ∧ norm3 (pullBack v1 v2 v3).e2 = 1 ∧
     norm3 (pullBack v1 v2 v3).e3 = 1) ∧
    (dot (pullBack v1 v2 v3).e1 (pullBack v1 v2 v3).e2 = 0 ∧
     dot (pullBack v1 v2 v3).e1 (pullBack v1 v2 v3).e3 = 0 ∧
     dot (pullBack v1 v2 v3).e2 (pullBack v1 v2 v3).e3 = 0) ∧
    ((pullBack v1 v2 v3).d1 = norm3 v1 ∧
     (pullBack v1 v2 v3).d2 =
       norm3 (v2 - dot (pullBack v1 v2 v3).e1 v2 • (pullBack v1 v2 v3).e1) ∧
     (pullBack v1 v2 v3).d3 =
       norm3 (v3 - dot (pullBack v1 v2 v3).e1 v3 • (pullBack v1 v2 v3).e1
                 - dot (pullBack v1 v2 v3).e2 v3 • (pullBack v1 v2 v3).e2)) := by
  have hv1 : v1 ≠ 0 := h.fst_ne_zero
  have hw2 : gsP2 v1 v2 ≠ 0 := gsP2_ne_zero h
  have hw3 : gsP3 v1 v2 v3 ≠ 0 := gsP3_ne_zero h
  refine ⟨⟨?_, ?_, ?_⟩, ⟨?_, ?_, ?_⟩, ?_, ?_, ?_⟩
  · rw [pullBack_e1_eq]
    exact norm3_unitize v1 hv1
  · rw [pullBack_e2_eq]
    exact norm3_unitize _ hw2
  · rw [pullBack_e3_eq]
    exact norm3_unitize _ hw3
  · rw [pullBack_e1_eq, pullBack_e2_eq]
    exact dot_unitize_unitize_gsP2 v2 hv1
  · rw [pullBack_e1_eq, pullBack_e3_eq, dot_unitize_right,
      dot_unitize_v1_gsP3 v2 v3 hv1, zero_div]
  · rw [pullBack_e2_eq, pullBack_e3_eq, dot_unitize_right,
      dot_unitize_gsP2_gsP3 v3 hv1 hw2, zero_div]
  · exact pullBack_d1_eq v1 v2 v3
  · rw [pullBack_d2_eq, pullBack_e1_eq]
    rfl
  · rw [pullBack_d3_eq, pullBack_e1_eq, pullBack_e2_eq]
    have hsub : gsP3 v1 v2 v3 =
        v3 - dot (unitize v1) v3 • unitize v1 -
          dot (unitize (gsP2 v1 v2)) v3 • unitize (gsP2 v1 v2) := by
      ext <;>
        simp only [gsP3, Vec3.sub_x, Vec3.sub_y, Vec3.sub_z, Vec3.add_x, Vec3.add_y,
          Vec3.add_z, Vec3.smul_x, Vec3.smul_y, Vec3.smul_z] <;>
        ring
    rw [hsub]

/-- Witness for C3 at the standard orthonormal basis. -/
theorem pullBack_orthonormal_witness :
    LinIndep3 ⟨1, 0, 0⟩ ⟨0, 1, 0⟩ ⟨0, 0, 1⟩ ∧
    ((norm3 (pullBack ⟨1, 0, 0⟩ ⟨0, 1, 0⟩ ⟨0, 0, 1⟩).e1 = 1 ∧
      norm3 (pullBack ⟨1, 0, 0⟩ ⟨0, 1, 0⟩ ⟨0, 0, 1⟩).e2 = 1 ∧
      norm3 (pullBack ⟨1, 0, 0⟩ ⟨0, 1, 0⟩ ⟨0, 0, 1⟩).e3 = 1) ∧
     (dot (pullBack ⟨1, 0, 0⟩ ⟨0, 1, 0⟩ ⟨0, 0, 1⟩).e1
        (pullBack ⟨1, 0, 0⟩ ⟨0, 1, 0⟩ ⟨0, 0, 1⟩).e2 = 0 ∧
      dot (pullBack ⟨1, 0, 0⟩ ⟨0, 1, 0⟩ ⟨0, 0, 1⟩).e1
        (pullBack ⟨1, 0, 0⟩ ⟨0, 1, 0⟩ ⟨0, 0, 1⟩).e3 = 0 ∧
      dot (pullBack ⟨1, 0, 0⟩ ⟨0, 1, 0⟩ ⟨0, 0, 1⟩).e2
        (pullBack ⟨1, 0, 0⟩ ⟨0, 1, 0⟩ ⟨0, 0, 1⟩).e3 = 0) ∧
     ((pullBack ⟨1, 0, 0⟩ ⟨0, 1, 0⟩ ⟨0, 0, 1⟩).d1 = norm3 ⟨1, 0, 0⟩ ∧
      (pullBack ⟨1, 0, 0⟩ ⟨0, 1, 0⟩ ⟨0, 0, 1⟩).d2 =
        norm3 (⟨0, 1, 0⟩ - dot (pullBack ⟨1, 0, 0⟩ ⟨0, 1, 0⟩ ⟨0, 0, 1⟩).e1 ⟨0, 1, 0⟩ •
          (pullBack ⟨1, 0, 0⟩ ⟨0, 1, 0⟩ ⟨0, 0, 1⟩).e1) ∧
      (pullBack ⟨1, 0, 0⟩ ⟨0, 1, 0⟩ ⟨0, 0, 1⟩).d3 =
        norm3 (⟨0, 0, 1⟩ - dot (pullBack ⟨1, 0, 0⟩ ⟨0, 1, 0⟩ ⟨0, 0, 1⟩).e1 ⟨0, 0, 1⟩ •
            (pullBack ⟨1, 0, 0⟩ ⟨0, 1, 0⟩ ⟨0, 0, 1⟩).e1
          - dot (pullBack ⟨1, 0, 0⟩ ⟨0, 1, 0⟩ ⟨0, 0, 1⟩).e2 ⟨0, 0, 1⟩ •
            (pullBack ⟨1, 0, 0⟩ ⟨0, 1, 0⟩ ⟨0, 0, 1⟩).e2))) := by
  have hli : LinIndep3 ⟨1, 0, 0⟩ ⟨0, 1, 0⟩ ⟨0, 0, 1⟩ := by
    intro a b c habc
    have hx := congrArg Vec3.x habc
    have hy := congrArg Vec3.y habc
    have hz := congrArg Vec3.z habc
    simp only [Vec3.add_x, Vec3.add_y, Vec3.add_z, Vec3.smul_x, Vec3.smul_y, Vec3.smul_z,
      Vec3.zero_x, Vec3.zero_y, Vec3.zero_z] at hx hy hz
    refine ⟨by linarith, by linarith, by linarith⟩
  exact ⟨hli, pullBack_orthonormal ⟨1, 0, 0⟩ ⟨0, 1, 0⟩ ⟨0, 0, 1⟩ hli⟩

/-! ### Degenerate tangent bases are not detected by the pull-back block -/

theorem norm3_mk_one : norm3 ⟨1, 0, 0⟩ = 1 := by
  rw [norm3]
  norm_num [dot]

theorem gsP2_collinear_eq_zero (v1 v2 v3 : Vec3) (c : ℝ) (hv1 : v1 ≠ 0)
    (hv2 : v2 = c • v1) : gsP2 v1 v2 = 0 := by
  have hn1 := norm3_pos v1 hv1
  have hd : dot (unitize v1) v2 = c * norm3 v1 := by
    rw [hv2, dot_smul_right, dot_unitize_left, ← norm3_mul_self]
    field_simp
  rw [hv2] at hd ⊢
  ext <;>
    simp only [gsP2_x, gsP2_y, gsP2_z, hd, Vec3.smul_x, Vec3.smul_y, Vec3.smul_z,
      Vec3.zero_x, Vec3.zero_y, Vec3.zero_z] <;>
    field_simp <;>
    ring

/-- C6 amended: the pull-back block performs no degeneracy check and has no
failure channel; when the second tangent vector is collinear with the first
(zero post-projection norm), it simply records the normalization factor `0`
(and divides by it), rather than signaling `DegenerateBasis` or aborting. -/
theorem pullBack_degenerate_records_zero (v1 v2 v3 : Vec3) (c : ℝ) (hv1 : v1 ≠ 0)
    (hv2 : v2 = c • v1) : (pullBack v1 v2 v3).d2 = 0 := by
  rw [pullBack_d2_eq, gsP2_collinear_eq_zero v1 v2 v3 c hv1 hv2, norm3]
  simp only [dot, Vec3.zero_x, Vec3.zero_y, Vec3.zero_z]
  norm_num

/-- Witness for the amended C6 at `v1 = (1,0,0)`, `v2 = 2 • v1`. -/
theorem pullBack_degenerate_records_zero_witness :
    ((⟨1, 0, 0⟩ : Vec3) ≠ 0) ∧ ((⟨2, 0, 0⟩ : Vec3) = (2 : ℝ) • ⟨1, 0, 0⟩) ∧
      (pullBack ⟨1, 0, 0⟩ ⟨2, 0, 0⟩ ⟨0, 0, 1⟩).d2 = 0 := by
  have h1 : (⟨1, 0, 0⟩ : Vec3) ≠ 0 := by
    intro hh
    have hx := congrArg Vec3.x hh
    norm_num at hx
  have h2 : (⟨2, 0, 0⟩ : Vec3) = (2 : ℝ) • ⟨1, 0, 0⟩ := by
    ext <;> norm_num
  exact ⟨h1, h2, pullBack_degenerate_records_zero ⟨1, 0, 0⟩ ⟨2, 0, 0⟩ ⟨0, 0, 1⟩ 2 h1 h2⟩

/-- C6 counterexample: on the totally degenerate input
`v1 = v2 = v3 = (1,0,0)` the second post-projection norm is zero, yet the
pull-back block does not signal `DegenerateBasis` or abort: it completes and
returns a `PBResult` that records the factors `d1 = 1` and `d2 = 0`, so the
estimation run continues and accumulates `log 0` into the exponents instead of
surfacing an error. -/
theorem pullBack_degenerate_no_signal :
    norm3 (gsP2 ⟨1, 0, 0⟩ ⟨1, 0, 0⟩) = 0 ∧
    (pullBack ⟨1, 0, 0⟩ ⟨1, 0, 0⟩ ⟨1, 0, 0⟩).d1 = 1 ∧
    (pullBack ⟨1, 0, 0⟩ ⟨1, 0, 0⟩ ⟨1, 0, 0⟩).d2 = 0 := by
  have h1 : (⟨1, 0, 0⟩ : Vec3) ≠ 0 := by
    intro hh
    have hx := congrArg Vec3.x hh
    norm_num at hx
  have h2 : (⟨1, 0, 0⟩ : Vec3) = (1 : ℝ) • ⟨1, 0, 0⟩ := by
    ext <;> norm_num
  have hz : gsP2 ⟨1, 0, 0⟩ ⟨1, 0, 0⟩ = 0 :=
    gsP2_collinear_eq_zero ⟨1, 0, 0⟩ ⟨1, 0, 0⟩ ⟨1, 0, 0⟩ 1 h1 h2
  refine ⟨?_, ?_, ?_⟩
  · rw [hz, norm3]
    simp only [dot, Vec3.zero_x, Vec3.zero_y, Vec3.zero_z]
    norm_num
  · rw [pullBack_d1_eq]
    exact norm3_mk_one
  · rw [pullBack_d2_eq, hz, norm3]
    simp only [dot, Vec3.zero_x, Vec3.zero_y, Vec3.zero_z]
    norm_num

/-! ### Accumulation of log normalization factors -/

theorem accumStep_LCE1 (s : AccState) :
    (accumStep s).LCE1 = s.LCE1 + Real.log (intervalPB s.es).d1 := rfl

theorem accumStep_LCE2 (s : AccState) :
    (accumStep s).LCE2 = s.LCE2 + Real.log (intervalPB s.es).d2 := rfl

theorem accumStep_LCE3 (s : AccState) :
    (accumStep s).LCE3 = s.LCE3 + Real.log (intervalPB s.es).d3 := rfl

theorem accumStep_iterate_LCE (n : ℕ) (s : AccState) :
    (accumStep^[n] s).LCE1 =
      s.LCE1 + ∑ i ∈ Finset.range n, Real.log (intervalPB (accumStep^[i] s).es).d1 ∧
    (accumStep^[n] s).LCE2 =
      s.LCE2 + ∑ i ∈ Finset.range n, Real.log (intervalPB (accumStep^[i] s).es).d2 ∧
    (accumStep^[n] s).LCE3 =
      s.LCE3 + ∑ i ∈ Finset.range n, Real.log (intervalPB (accumStep^[i] s).es).d3 := by
  induction n with
  | zero => simp
  | succ n ih =>
    rw [Function.iterate_succ_apply', accumStep_LCE1, accumStep_LCE2, accumStep_LCE3,
      Finset.sum_range_succ, Finset.sum_range_succ, Finset.sum_range_succ,
      ih.1, ih.2.1, ih.2.2]
    refine ⟨by ring, by ring, by ring⟩

/-- C4: at run end each final exponent rate equals its accumulated sum of log
normalization factors divided by the total elapsed integration time
`dt * nItsPerPB * nIterates`: for each `k`, `LCE[k]` is the sum over the
`nIterates` pull-back intervals of `log(factor[k])`, divided by that time. -/
theorem finalLCE_eq_logsum_div_time :
    finalLCE1 = (∑ i ∈ Finset.range nIterates, Real.log
        (intervalPB ((accumStep^[i] { es := alignEnd, LCE1 := 0, LCE2 := 0, LCE3 := 0 }).es)).d1)
      / (dt * (nItsPerPB : ℝ) * (nIterates : ℝ)) ∧
    finalLCE2 = (∑ i ∈ Finset.range nIterates, Real.log
        (intervalPB ((accumStep^[i] { es := alignEnd, LCE1 := 0, LCE2 := 0, LCE3 := 0 }).es)).d2)
      / (dt * (nItsPerPB : ℝ) * (nIterates : ℝ)) ∧
    finalLCE3 = (∑ i ∈ Finset.range nIterates, Real.log
        (intervalPB ((accumStep^[i] { es := alignEnd, LCE1 := 0, LCE2 := 0, LCE3 := 0 }).es)).d3)
      / (dt * (nItsPerPB : ℝ) * (nIterates : ℝ)) := by
  have h := accumStep_iterate_LCE nIterates { es := alignEnd, LCE1 := 0, LCE2 := 0, LCE3 := 0 }
  refine ⟨?_, ?_, ?_⟩
  · rw [finalLCE1, IntegrationTime, accumEnd, h.1, zero_add]
  · rw [finalLCE2, IntegrationTime, accumEnd, h.2.1, zero_add]
  · rw [finalLCE3, IntegrationTime, accumEnd, h.2.2, zero_add]

/-! ### The trajectory burn-in product is not the state entering the alignment
burn-in.

The script re-assigns `xState = yState = zState = 1.0` before the alignment
loop, so the state entering it is `(1,1,1)`, not `lorenzStep^[nTransients]`
applied to `(1,1,1)`. To separate the two exactly, the nonlinear step is
re-run over ℚ (all script constants are rational) and then reduced modulo the
prime 10007 (coprime to every denominator, which divides a power of 30), where
one hundred Runge-Kutta steps are an exact finite computation. -/

/-- `RKThreeD` with the divisions by the constants 2 and 6 replaced by
multiplications with given ring elements `half` and `sixth`; used to run the
Runge-Kutta step inside `ZMod 10007`, where `half` and `sixth` are the modular
inverses of 2 and 6. -/
def RKThreeDScaled {F : Type} [CommRing F] (a b c d e i x y z : F)
    (f g h : F → F → F → F → F → F → F → F → F → F) (dt half sixth : F) : F × F × F :=
  let k1x := dt * f a b c d e i x y z
  let k1y := dt * g a b c d e i x y z
  let k1z := dt * h a b c d e i x y z
  let k2x := dt * f a b c d e i (x + k1x * half) (y + k1y * half) (z + k1z * half)
  let k2y := dt * g a b c d e i (x + k1x * half) (y + k1y * half) (z + k1z * half)
  let k2z := dt * h a b c d e i (x + k1x * half) (y + k1y * half) (z + k1z * half)
  let k3x := dt * f a b c d e i (x + k2x * half) (y + k2y * half) (z + k2z * half)
  let k3y := dt * g a b c d e i (x + k2x * half) (y + k2y * half) (z + k2z * half)
  let k3z := dt * h a b c d e i (x + k2x * half) (y + k2y * half) (z + k2z * half)
  let k4x := dt * f a b c d e i (x + k3x) (y + k3y) (z + k3z)
  let k4y := dt * g a b c d e i (x + k3x) (y + k3y) (z + k3z)
  let k4z := dt * h a b c d e i (x + k3x) (y + k3y) (z + k3z)
  (x + (k1x + 2 * k2x + 2 * k3x + k4x) * sixth,
   y + (k1y + 2 * k2y + 2 * k3y + k4y) * sixth,
   z + (k1z + 2 * k2z + 2 * k3z + k4z) * sixth)

/-- The script's nonlinear step with its exact rational constants
(`0.01 = 1/100`, `2.2 = 11/5`, `6.39 = 639/100`), over ℚ. -/
def lorenzStepQ (v : ℚ × ℚ × ℚ) : ℚ × ℚ × ℚ :=
  RKThreeD 5 1 (11/5) 8 1 (639/100) v.1 v.2.1 v.2.2
    LorenzXDot LorenzYDot LorenzZDot (1/100)

/-- The script's nonlinear step reduced modulo 10007: the constants are the
images of the rational constants (`5704 = 100⁻¹`, `4005 = 11·5⁻¹`,
`2308 = 639·100⁻¹`, `5004 = 2⁻¹`, `1668 = 6⁻¹`). -/
def lorenzStepZ (v : ZMod 10007 × ZMod 10007 × ZMod 10007) :
    ZMod 10007 × ZMod 10007 × ZMod 10007 :=
  RKThreeDScaled 5 1 4005 8 1 2308 v.1 v.2.1 v.2.2
    LorenzXDot LorenzYDot LorenzZDot 5704 5004 1668

/-- Casting a rational triple to a real state vector. -/
noncomputable def castTriple (v : ℚ × ℚ × ℚ) : Vec3 :=
  ⟨(v.1 : ℝ), (v.2.1 : ℝ), (v.2.2 : ℝ)⟩

theorem castTriple_inj {u v : ℚ × ℚ × ℚ} (h : castTriple u = castTriple v) : u = v := by
  have hx := congrArg Vec3.x h
  have hy := congrArg Vec3.y h
  have hz := congrArg Vec3.z h
  simp only [castTriple, Rat.cast_inj] at hx hy hz
  exact Prod.ext hx (Prod.ext hy hz)

theorem lorenzStep_cast (v : ℚ × ℚ × ℚ) :
    lorenzStep (castTriple v) = castTriple (lorenzStepQ v) := by
  have ha : alpha = ((5 : ℚ) : ℝ) := by rw [alpha]; norm_num
  have hg : gamma = ((1 : ℚ) : ℝ) := by rw [gamma]; norm_num
  have hm : mu = ((11/5 : ℚ) : ℝ) := by rw [mu]; norm_num
  have hb : beta = ((8 : ℚ) : ℝ) := by rw [beta]; norm_num
  have hd : delta = ((1 : ℚ) : ℝ) := by rw [delta]; norm_num
  have hl : lambd = ((639/100 : ℚ) : ℝ) := by rw [lambd]; norm_num
  have ht : dt = ((1/100 : ℚ) : ℝ) := by rw [dt]; norm_num
  ext <;>
    simp only [lorenzStep, lorenzStepQ, RKThreeD, LorenzXDot, LorenzYDot, LorenzZDot,
      Vec3.ofProd, castTriple, ha, hg, hm, hb, hd, hl, ht] <;>
    push_cast <;>
    ring

theorem orbit_cast (n : ℕ) (v : ℚ × ℚ × ℚ) :
    lorenzStep^[n] (castTriple v) = castTriple (lorenzStepQ^[n] v) := by
  induction n generalizing v with
  | zero => rfl
  | succ n ih =>
    rw [Function.iterate_succ_apply, Function.iterate_succ_apply, lorenzStep_cast, ih]

/-- `q` and `m` represent the same number: for some integer `a` and exponent
`k`, `q = a / 30^k` in ℚ and `m = a · (30^k)⁻¹` in `ZMod 10007`. Every
intermediate value of the rational Runge-Kutta step lies in ℤ[1/30], so this
relation is preserved along the orbit. -/
def Rel (q : ℚ) (m : ZMod 10007) : Prop :=
  ∃ (a : ℤ) (k : ℕ), q * 30 ^ k = (a : ℚ) ∧ (a : ZMod 10007) = m * 30 ^ k

theorem Rel.add {q q' : ℚ} {m m' : ZMod 10007} (h : Rel q m) (h' : Rel q' m') :
    Rel (q + q') (m + m') := by
  obtain ⟨a, k, h1, h2⟩ := h
  obtain ⟨b, l, h3, h4⟩ := h'
  refine ⟨a * 30 ^ l + b * 30 ^ k, k + l, ?_, ?_⟩
  · push_cast
    rw [pow_add]
    linear_combination (30 : ℚ) ^ l * h1 + (30 : ℚ) ^ k * h3
  · push_cast
    rw [pow_add]
    linear_combination (30 : ZMod 10007) ^ l * h2 + (30 : ZMod 10007) ^ k * h4

theorem Rel.sub {q q' : ℚ} {m m' : ZMod 10007} (h : Rel q m) (h' : Rel q' m') :
    Rel (q - q') (m - m') := by
  obtain ⟨a, k, h1, h2⟩ := h
  obtain ⟨b, l, h3, h4⟩ := h'
  refine ⟨a * 30 ^ l - b * 30 ^ k, k + l, ?_, ?_⟩
  · push_cast
    rw [pow_add]
    linear_combination (30 : ℚ) ^ l * h1 - (30 : ℚ) ^ k * h3
  · push_cast
    rw [pow_add]
    linear_combination (30 : ZMod 10007) ^ l * h2 - (30 : ZMod 10007) ^ k * h4

theorem Rel.mul {q q' : ℚ} {m m' : ZMod 10007} (h : Rel q m) (h' : Rel q' m') :
    Rel (q * q') (m * m') := by
  obtain ⟨a, k, h1, h2⟩ := h
  obtain ⟨b, l, h3, h4⟩ := h'
  refine ⟨a * b, k + l, ?_, ?_⟩
  · push_cast
    rw [pow_add]
    linear_combination (q' * 30 ^ l) * h1 + (a : ℚ) * h3
  · push_cast
    rw [pow_add]
    linear_combination ((m' : ZMod 10007) * 30 ^ l) * h2 + (a : ZMod 10007) * h4

theorem Rel.div2 {q : ℚ} {m : ZMod 10007} (h : Rel q m) : Rel (q / 2) (m * 5004) := by
  obtain ⟨a, k, h1, h2⟩ := h
  have h30 : (5004 : ZMod 10007) * 30 = 15 := by decide
  refine ⟨15 * a, k + 1, ?_, ?_⟩
  · push_cast
    rw [pow_succ]
    linear_combination 15 * h1
  · push_cast
    rw [pow_succ]
    linear_combination 15 * h2 - (m * 30 ^ k) * h30

theorem Rel.div6 {q : ℚ} {m : ZMod 10007} (h : Rel q m) : Rel (q / 6) (m * 1668) := by
  obtain ⟨a, k, h1, h2⟩ := h
  have h30 : (1668 : ZMod 10007) * 30 = 5 := by decide
  refine ⟨5 * a, k + 1, ?_, ?_⟩
  · push_cast
    rw [pow_succ]
    linear_combination 5 * h1
  · push_cast
    rw [pow_succ]
    linear_combination 5 * h2 - (m * 30 ^ k) * h30

theorem Rel.num (n : ℤ) : Rel (n : ℚ) ((n : ℤ) : ZMod 10007) :=
  ⟨n, 0, by norm_num, by norm_num⟩

theorem Rel.one : Rel 1 1 := by
  have := Rel.num 1
  norm_num at this
  exact this

theorem Rel.c5 : Rel 5 5 := by
  have := Rel.num 5
  norm_num at this
  exact this

theorem Rel.c1 : Rel 1 1 := Rel.one

theorem Rel.c8 : Rel 8 8 := by
  have := Rel.num 8
  norm_num at this
  exact this

theorem Rel.c2 : Rel 2 2 := by
  have := Rel.num 2
  norm_num at this
  exact this

theorem Rel.cdt : Rel (1/100) 5704 :=
  ⟨9, 2, by norm_num, by decide⟩

theorem Rel.cmu : Rel (11/5) 4005 :=
  ⟨66, 1, by norm_num, by decide⟩

theorem Rel.clambd : Rel (639/100) 2308 :=
  ⟨5751, 2, by norm_num, by decide⟩

theorem Rel.lorenzX {x y z : ℚ} {xz yz zz : ZMod 10007}
    (hx : Rel x xz) (hy : Rel y yz) (hz : Rel z zz) :
    Rel (LorenzXDot 5 1 (11/5) 8 1 (639/100) x y z)
      (LorenzXDot 5 1 4005 8 1 2308 xz yz zz) := by
  simp only [LorenzXDot]
  exact Rel.sub (Rel.mul (Rel.mul Rel.c5 hy) hz) (Rel.mul Rel.c1 hx)

theorem Rel.lorenzY {x y z : ℚ} {xz yz zz : ZMod 10007}
    (hx : Rel x xz) (hy : Rel y yz) (hz : Rel z zz) :
    Rel (LorenzYDot 5 1 (11/5) 8 1 (639/100) x y z)
      (LorenzYDot 5 1 4005 8 1 2308 xz yz zz) := by
  simp only [LorenzYDot]
  exact Rel.sub (Rel.mul Rel.cmu (Rel.add hy hz)) (Rel.mul (Rel.mul Rel.c8 hx) hz)

theorem Rel.lorenzZ {x y z : ℚ} {xz yz zz : ZMod 10007}
    (hx : Rel x xz) (hy : Rel y yz) (hz : Rel z zz) :
    Rel (LorenzZDot 5 1 (11/5) 8 1 (639/100) x y z)
      (LorenzZDot 5 1 4005 8 1 2308 xz yz zz) := by
  simp only [LorenzZDot]
  exact Rel.sub (Rel.mul Rel.c1 hy) (Rel.mul Rel.clambd hz)

/-- Componentwise `Rel` between a rational and a mod-10007 state triple. -/
def Rel3 (v : ℚ × ℚ × ℚ) (w : ZMod 10007 × ZMod 10007 × ZMod 10007) : Prop :=
  Rel v.1 w.1 ∧ Rel v.2.1 w.2.1 ∧ Rel v.2.2 w.2.2

theorem Rel3.step {v : ℚ × ℚ × ℚ} {w : ZMod 10007 × ZMod 10007 × ZMod 10007}
    (h : Rel3 v w) : Rel3 (lorenzStepQ v) (lorenzStepZ w) := by
  obtain ⟨hx, hy, hz⟩ := h
  have hk1x := Rel.mul Rel.cdt (Rel.lorenzX hx hy hz)
  have hk1y := Rel.mul Rel.cdt (Rel.lorenzY hx hy hz)
  have hk1z := Rel.mul Rel.cdt (Rel.lorenzZ hx hy hz)
  have hx2 := Rel.add hx (Rel.div2 hk1x)
  have hy2 := Rel.add hy (Rel.div2 hk1y)
  have hz2 := Rel.add hz (Rel.div2 hk1z)
  have hk2x := Rel.mul Rel.cdt (Rel.lorenzX hx2 hy2 hz2)
  have hk2y := Rel.mul Rel.cdt (Rel.lorenzY hx2 hy2 hz2)
  have hk2z := Rel.mul Rel.cdt (Rel.lorenzZ hx2 hy2 hz2)
  have hx3 := Rel.add hx (Rel.div2 hk2x)
  have hy3 := Rel.add hy (Rel.div2 hk2y)
  have hz3 := Rel.add hz (Rel.div2 hk2z)
  have hk3x := Rel.mul Rel.cdt (Rel.lorenzX hx3 hy3 hz3)
  have hk3y := Rel.mul Rel.cdt (Rel.lorenzY hx3 hy3 hz3)
  have hk3z := Rel.mul Rel.cdt (Rel.lorenzZ hx3 hy3 hz3)
  have hx4 := Rel.add hx hk3x
  have hy4 := Rel.add hy hk3y
  have hz4 := Rel.add hz hk3z
  have hk4x := Rel.mul Rel.cdt (Rel.lorenzX hx4 hy4 hz4)
  have hk4y := Rel.mul Rel.cdt (Rel.lorenzY hx4 hy4 hz4)
  have hk4z := Rel.mul Rel.cdt (Rel.lorenzZ hx4 hy4 hz4)
  refine ⟨?_, ?_, ?_⟩
  · exact Rel.add hx (Rel.div6 (Rel.add (Rel.add (Rel.add hk1x (Rel.mul Rel.c2 hk2x))
      (Rel.mul Rel.c2 hk3x)) hk4x))
  · exact Rel.add hy (Rel.div6 (Rel.add (Rel.add (Rel.add hk1y (Rel.mul Rel.c2 hk2y))
      (Rel.mul Rel.c2 hk3y)) hk4y))
  · exact Rel.add hz (Rel.div6 (Rel.add (Rel.add (Rel.add hk1z (Rel.mul Rel.c2 hk2z))
      (Rel.mul Rel.c2 hk3z)) hk4z))

theorem Rel3.orbit (n : ℕ) : Rel3 (lorenzStepQ^[n] (1, 1, 1)) (lorenzStepZ^[n] (1, 1, 1)) := by
  induction n with
  | zero => exact ⟨Rel.one, Rel.one, Rel.one⟩
  | succ n ih =>
    rw [Function.iterate_succ_apply', Function.iterate_succ_apply']
    exact ih.step

theorem Rel.eq_one {m : ZMod 10007} (h : Rel 1 m) : m = 1 := by
  obtain ⟨a, k, h1, h2⟩ := h
  have ha : a = 30 ^ k := by
    have hcast : (a : ℚ) = ((30 ^ k : ℤ) : ℚ) := by
      push_cast
      linarith [h1]
    exact_mod_cast hcast
  subst ha
  have h2' : (30 : ZMod 10007) ^ k = m * 30 ^ k := by
    push_cast at h2
    exact h2
  have hinv : (30 : ZMod 10007) * 2335 = 1 := by decide
  have hcancel := congrArg (fun t => t * 2335 ^ k) h2'
  simp only [mul_assoc, ← mul_pow, hinv, one_pow, mul_one] at hcancel
  exact hcancel.symm

set_option maxRecDepth 100000 in
theorem lorenzStepZ_orbit_ne :
    lorenzStepZ^[nTransients] (1, 1, 1) ≠ (1, 1, 1) := by
  decide

/-- One hundred Runge-Kutta steps move the state away from `(1,1,1)`:
the trajectory burn-in product differs from the fresh initial condition. -/
theorem lorenzStep_orbit_ne_one : lorenzStep^[nTransients] ⟨1, 1, 1⟩ ≠ ⟨1, 1, 1⟩ := by
  intro h
  have hone : (⟨1, 1, 1⟩ : Vec3) = castTriple (1, 1, 1) := by
    ext <;> simp [castTriple]
  rw [hone, orbit_cast] at h
  have hq : lorenzStepQ^[nTransients] (1, 1, 1) = (1, 1, 1) := castTriple_inj h
  have hrel := Rel3.orbit nTransients
  rw [hq] at hrel
  have h1 : (lorenzStepZ^[nTransients] (1, 1, 1)).1 = 1 := Rel.eq_one hrel.1
  have h2 : (lorenzStepZ^[nTransients] (1, 1, 1)).2.1 = 1 := Rel.eq_one hrel.2.1
  have h3 : (lorenzStepZ^[nTransients] (1, 1, 1)).2.2 = 1 := Rel.eq_one hrel.2.2
  exact lorenzStepZ_orbit_ne (Prod.ext h1 (Prod.ext h2 h3))

/-- C5 counterexample: the State entering the alignment burn-in
(`lceInitState`, re-assigned to `(1,1,1)` at source lines 144-146) is *not*
the State produced by the trajectory burn-in (`trajTransientEnd`, the
`nTransients`-step orbit of `(1,1,1)`): the claim's data-flow link between the
two phases is false on the code. -/
theorem lceInitState_ne_trajTransientEnd : lceInitState ≠ trajTransientEnd := by
  intro h
  have h' : lorenzStep^[nTransients] ⟨1, 1, 1⟩ = ⟨1, 1, 1⟩ := by
    rw [trajTransientEnd, initState] at h
    exact h.symm
  exact lorenzStep_orbit_ne_one h'

/-- C5 amended: the run's phases are strictly sequential — the trajectory
transient loop, then re-initialization of the tangent vectors to the standard
basis followed by the alignment burn-in, then the accumulation loop — but the
State entering the alignment burn-in is the freshly re-assigned initial
condition `(1,1,1)`, which differs from the State produced by the trajectory
burn-in. -/
theorem estimation_phase_structure :
    trajTransientEnd = lorenzStep^[nTransients] initState ∧
    alignEnd = alignStep^[nTransients]
      { st := lceInitState, e1 := initE1, e2 := initE2, e3 := initE3 } ∧
    accumEnd = accumStep^[nIterates] { es := alignEnd, LCE1 := 0, LCE2 := 0, LCE3 := 0 } ∧
    lceInitState = ⟨1, 1, 1⟩ ∧
    (initE1 = ⟨1, 0, 0⟩ ∧ initE2 = ⟨0, 1, 0⟩ ∧ initE3 = ⟨0, 0, 1⟩) ∧
    lceInitState ≠ trajTransientEnd := by
  refine ⟨rfl, rfl, rfl, rfl, ⟨rfl, rfl, rfl⟩, ?_⟩
  intro h
  have h' : lorenzStep^[nTransients] ⟨1, 1, 1⟩ = ⟨1, 1, 1⟩ := by
    rw [trajTransientEnd, initState] at h
    exact h.symm
  exact lorenzStep_orbit_ne_one h'

end LorenzODE
